import Mathlib

/-!
Shallow embedding of the deno-box project-name subsystem.

Embedded source:
* `src/random-name.ts` — the `RandomName` class (seeded word sampler).
* `src/main.ts` — `getProjectName` (unique-name resolver), plus the earlier
  monolithic `main.ts` whose `getProjectName` is embedded separately as
  `getProjectNameOld` for the refactoring-equivalence question.

Modelling conventions:
* The seeded pseudo-random stream `randomSeeded(seed)` comes from the
  third-party `@std/random` package, which is not part of this repository;
  following the design notes it is modelled as an injectable strategy: a
  function `rng : Int → Nat → Nat` that, for a given seed, yields the stream
  of raw 32-bit generator outputs `u ∈ [0, 2^32)` indexed by a cursor.  The
  float produced by the generator is `u / 2^32 ∈ [0, 1)`, and
  `Math.floor(v * n)` on such a float equals the integer `u * n / 2^32`
  exactly whenever `u * n < 2^53`, which holds for the word-list lengths and
  the factor 100 used here; the embedding therefore works in exact integer
  arithmetic.
* JavaScript truthiness in `x || default` is modelled explicitly: for an
  optional bigint, `undefined` and `0n` are falsy; for an optional string,
  `undefined` and `""` are falsy.
* The `Math.random()`-derived fallback seed of the constructor is an explicit
  `entropy` parameter.
* The unbounded `while` loops of the resolver take a fuel parameter and
  return `Option String` (`none` when the fuel runs out before a free name is
  found, mirroring the accepted non-termination risk).
* The word lists (`assets/names.json`) are data, not code; they appear as
  explicit `adjectives`/`animals` parameters.
* Strings are modelled as Lean `String`s; `charAt(0).toUpperCase()`/`slice(1)`
  are modelled on the character list with the ASCII `Char.toUpper`, matching
  JavaScript on the ASCII word lists in scope.
-/

/-- JavaScript truthiness of an optional string field: `undefined`, `false`
and `""` are falsy, every other string is truthy. -/
def strTruthy : Option String → Bool
  | none => false
  | some s => !(s == "")

/-- JavaScript truthiness of an optional bigint field: `undefined` and `0n`
are falsy. -/
def intTruthy : Option Int → Bool
  | none => false
  | some s => !(s == 0)

/-- Options of the `RandomName` constructor (`RandomNameOptions` in
`src/random-name.ts`): all fields optional. -/
structure RandomNameOptions where
  seed : Option Int := none
  separator : Option String := none
  capitalize : Option Bool := none
  addNumbers : Option Bool := none
deriving DecidableEq

/-- State of a `RandomName` instance: the resolved constructor fields plus the
cursor position of the pseudo-random stream (the `nextRnd` closure's internal
state). -/
structure RandomName where
  seed : Int
  cursor : Nat
  separator : String
  capitalize : Bool
  addNumbers : Bool
deriving DecidableEq

/-- The `RandomName` constructor:
`seed = options.seed || BigInt(Math.floor(Math.random() * MAX_SAFE_INTEGER))`,
`separator = options.separator || ' '`, `capitalize = options.capitalize ||
false`, `addNumbers = options.addNumbers || false`.  The `Math.random()`
fallback value is the `entropy` argument. -/
def RandomName.create (options : RandomNameOptions) (entropy : Int) : RandomName where
  seed := if intTruthy options.seed then options.seed.getD 0 else entropy
  cursor := 0
  separator := if strTruthy options.separator then options.separator.getD "" else " "
  capitalize := options.capitalize.getD false
  addNumbers := options.addNumbers.getD false

/-- Embedding of `pick(arr) = arr[Math.floor(this.nextRnd() * arr.length)]`
where the raw
generator output is `u`: index `u * arr.length / 2^32` (exact integer form of
the float computation; see the module docstring).  Out-of-range access (empty
list) yields `""`, standing for JavaScript `undefined`. -/
def pick (u : Nat) (arr : List String) : String :=
  arr.getD (u * arr.length / 2 ^ 32) ""

/-- The per-word capitalization of `next()`:
`word.charAt(0).toUpperCase() + word.slice(1)`. -/
def capitalizeWord (s : String) : String :=
  match s.data with
  | [] => ""
  | c :: cs => String.mk (c.toUpper :: cs)

/-- Embedding of `RandomName.next()`: draw an adjective, draw an animal, optionally
capitalize each, join with the separator, and if `addNumbers` is set draw one
more value and append `Math.floor(value * 100)` after another separator.
Returns the name together with the advanced sampler state. -/
def RandomName.nextName (rng : Int → Nat → Nat) (adjectives animals : List String)
    (st : RandomName) : String × RandomName :=
  let cap : String → String := if st.capitalize then capitalizeWord else id
  let adj := cap (pick (rng st.seed st.cursor) adjectives)
  let ani := cap (pick (rng st.seed (st.cursor + 1)) animals)
  let base := (adj ++ st.separator) ++ ani
  if st.addNumbers then
    ((base ++ st.separator) ++ toString (rng st.seed (st.cursor + 2) * 100 / 2 ^ 32),
      { st with cursor := st.cursor + 3 })
  else
    (base, { st with cursor := st.cursor + 2 })

/-- The sequence of names produced by repeated `next()` calls starting from a
sampler state: `nameSeq st k` is the `(k+1)`-st produced name. -/
def nameSeq (rng : Int → Nat → Nat) (adjectives animals : List String) :
    RandomName → Nat → String
  | st, 0 => (st.nextName rng adjectives animals).1
  | st, k + 1 => nameSeq rng adjectives animals (st.nextName rng adjectives animals).2 k

/-- Command-line/config options reaching `getProjectName` (`Options` in
`src/options.ts`).  `copy` has TypeScript type `string | false`; both `false`
and `undefined` are modelled as `none`. -/
structure Options where
  copy : Option String := none
  help : Bool := false
  root : String := ""
  writeConfig : Bool := false
  name : Option String := none
  add : Option (List String) := none
  vscode : Bool := false
deriving DecidableEq

/-- The copy-suffix probing loop of `getProjectName` (`src/main.ts`):
`x = "{copy}-copy"; i = 1; while (existsSync(root + "/" + x)) { x =
"{copy}-copy-" + i; i++; } return x;` with a fuel bound on the number of
existence checks. -/
def copyLoop (ex : String → Bool) (root base x : String) (i : Nat) : Nat → Option String
  | 0 => none
  | fuel + 1 =>
    if ex (root ++ "/" ++ x) then
      copyLoop ex root base (base ++ "-copy-" ++ toString i) (i + 1) fuel
    else
      some x

/-- The fresh-name probing loop of `getProjectName` (`src/main.ts`):
`do { projectName = randomName.next(); } while (existsSync(root + "/" +
projectName));` with a fuel bound on the number of existence checks. -/
def freshLoop (ex : String → Bool) (rng : Int → Nat → Nat)
    (adjectives animals : List String) (root : String) :
    RandomName → Nat → Option String
  | _, 0 => none
  | st, fuel + 1 =>
    let r := st.nextName rng adjectives animals
    if ex (root ++ "/" ++ r.1) then
      freshLoop ex rng adjectives animals root r.2 fuel
    else
      some r.1

/-- Embedding of `getProjectName` from the refactored `src/main.ts`: explicit-name mode,
copy-suffix mode, then fresh-name mode with a sampler constructed with
`{ separator: '-', addNumbers: true }` (seed absent, so the entropy fallback
seeds it). -/
def getProjectName (rng : Int → Nat → Nat) (adjectives animals : List String)
    (ex : String → Bool) (options : Options) (entropy : Int) (fuel : Nat) :
    Option String :=
  if strTruthy options.name then
    some (options.name.getD "")
  else if strTruthy options.copy then
    let base := options.copy.getD ""
    copyLoop ex options.root base (base ++ "-copy") 1 fuel
  else
    freshLoop ex rng adjectives animals options.root
      (RandomName.create { separator := some "-", addNumbers := some true } entropy) fuel

/-- The copy-suffix probing loop of the `getProjectName` of the earlier
monolithic `main.ts`, embedded independently. -/
def copyLoopOld (ex : String → Bool) (root base x : String) (i : Nat) : Nat → Option String
  | 0 => none
  | fuel + 1 =>
    if ex (root ++ "/" ++ x) then
      copyLoopOld ex root base (base ++ "-copy-" ++ toString i) (i + 1) fuel
    else
      some x

/-- The fresh-name probing loop of the `getProjectName` of the earlier
monolithic `main.ts`, embedded independently. -/
def freshLoopOld (ex : String → Bool) (rng : Int → Nat → Nat)
    (adjectives animals : List String) (root : String) :
    RandomName → Nat → Option String
  | _, 0 => none
  | st, fuel + 1 =>
    let r := st.nextName rng adjectives animals
    if ex (root ++ "/" ++ r.1) then
      freshLoopOld ex rng adjectives animals root r.2 fuel
    else
      some r.1

/-- Embedding of `getProjectName` from the earlier monolithic `main.ts`, transcribed
independently of the refactored version. -/
def getProjectNameOld (rng : Int → Nat → Nat) (adjectives animals : List String)
    (ex : String → Bool) (options : Options) (entropy : Int) (fuel : Nat) :
    Option String :=
  if strTruthy options.name then
    some (options.name.getD "")
  else if strTruthy options.copy then
    let base := options.copy.getD ""
    copyLoopOld ex options.root base (base ++ "-copy") 1 fuel
  else
    freshLoopOld ex rng adjectives animals options.root
      (RandomName.create { separator := some "-", addNumbers := some true } entropy) fuel

/-- The `k`-th candidate probed by the copy-suffix loop:
`{base}-copy`, then `{base}-copy-1`, `{base}-copy-2`, …. -/
def copyCandidate (base : String) : Nat → String
  | 0 => base ++ "-copy"
  | k + 1 => base ++ "-copy-" ++ toString (k + 1)

/-! ## Helper lemmas -/

theorem pick_index_lt (u : Nat) (arr : List String) (hu : u < 2 ^ 32) (h : arr ≠ []) :
    u * arr.length / 2 ^ 32 < arr.length := by
  have hlen : 0 < arr.length := List.length_pos.mpr h
  rw [Nat.div_lt_iff_lt_mul (by norm_num : 0 < (2 : Nat) ^ 32)]
  calc u * arr.length < 2 ^ 32 * arr.length := (Nat.mul_lt_mul_right hlen).mpr hu
    _ = arr.length * 2 ^ 32 := Nat.mul_comm _ _

theorem pick_mem (u : Nat) (arr : List String) (hu : u < 2 ^ 32) (h : arr ≠ []) :
    pick u arr ∈ arr := by
  unfold pick
  rw [List.getD_eq_getElem arr "" (pick_index_lt u arr hu h)]
  exact List.getElem_mem _

theorem numeric_suffix_lt (u : Nat) (hu : u < 2 ^ 32) : u * 100 / 2 ^ 32 < 100 := by
  rw [Nat.div_lt_iff_lt_mul (by norm_num : 0 < (2 : Nat) ^ 32)]
  calc u * 100 < 2 ^ 32 * 100 := (Nat.mul_lt_mul_right (by norm_num)).mpr hu
    _ = 100 * 2 ^ 32 := Nat.mul_comm _ _

theorem capitalizeWord_head (s : String) :
    (capitalizeWord s).data.head? = s.data.head?.map Char.toUpper := by
  obtain ⟨l⟩ := s
  cases l <;> rfl

theorem capitalizeWord_tail (s : String) :
    (capitalizeWord s).data.tail = s.data.tail := by
  obtain ⟨l⟩ := s
  cases l <;> rfl

theorem nextName_fst (rng : Int → Nat → Nat) (adjectives animals : List String)
    (st : RandomName) :
    (st.nextName rng adjectives animals).1 =
      (let cap := if st.capitalize then capitalizeWord else id
       let base := (cap (pick (rng st.seed st.cursor) adjectives) ++ st.separator)
          ++ cap (pick (rng st.seed (st.cursor + 1)) animals)
       if st.addNumbers then
         (base ++ st.separator) ++ toString (rng st.seed (st.cursor + 2) * 100 / 2 ^ 32)
       else base) := by
  cases h : st.addNumbers <;> simp [RandomName.nextName, h]

/-! ## Claim theorems -/

/-- C4: every string returned by `next()` is the (possibly capitalized)
adjective, then the separator, then the (possibly capitalized) animal; when
`addNumbers` is true one further stream value `u` is drawn, mapped to
`⌊(u/2^32)·100⌋ = u·100/2^32` — always an integer in `[0, 100)` — and appended
after another separator. -/
theorem next_output_format (rng : Int → Nat → Nat) (adjectives animals : List String)
    (st : RandomName) (hu : rng st.seed (st.cursor + 2) < 2 ^ 32) :
    ((st.nextName rng adjectives animals).1 =
      (let cap := if st.capitalize then capitalizeWord else id
       let base := (cap (pick (rng st.seed st.cursor) adjectives) ++ st.separator)
          ++ cap (pick (rng st.seed (st.cursor + 1)) animals)
       if st.addNumbers then
         (base ++ st.separator) ++ toString (rng st.seed (st.cursor + 2) * 100 / 2 ^ 32)
       else base)) ∧
    rng st.seed (st.cursor + 2) * 100 / 2 ^ 32 < 100 :=
  ⟨nextName_fst rng adjectives animals st, numeric_suffix_lt _ hu⟩

/-- C4 witness: a concrete sampler with `addNumbers` set produces
`"ab cd 0"` and the numeric suffix bound holds. -/
theorem next_output_format_witness :
    ((RandomName.create { addNumbers := some true } 7).nextName
        (fun _ _ => 123) ["ab"] ["cd"]).1 = "ab cd 0" ∧
    (123 : Nat) * 100 / 2 ^ 32 < 100 := by
  have h := next_output_format (fun _ _ => 123) ["ab"] ["cd"]
    (RandomName.create { addNumbers := some true } 7) (by decide)
  exact ⟨h.1.trans (by decide), h.2⟩

/-- C5: with `capitalize` set, each word segment of the `next()` output passes
through `capitalizeWord`, which maps the first character through
`Char.toUpper` and leaves every other character unchanged; with `capitalize`
unset each word passes through `id`, so no casing change is applied. -/
theorem capitalize_first_char_only (rng : Int → Nat → Nat)
    (adjectives animals : List String) (st : RandomName) :
    (∀ s : String, (capitalizeWord s).data.head? = s.data.head?.map Char.toUpper ∧
      (capitalizeWord s).data.tail = s.data.tail) ∧
    ((st.nextName rng adjectives animals).1 =
      (let cap := if st.capitalize then capitalizeWord else id
       let base := (cap (pick (rng st.seed st.cursor) adjectives) ++ st.separator)
          ++ cap (pick (rng st.seed (st.cursor + 1)) animals)
       if st.addNumbers then
         (base ++ st.separator) ++ toString (rng st.seed (st.cursor + 2) * 100 / 2 ^ 32)
       else base)) :=
  ⟨fun s => ⟨capitalizeWord_head s, capitalizeWord_tail s⟩, nextName_fst rng adjectives animals st⟩

/-- C6: under the precondition that both word lists are non-empty (and that
the raw generator outputs are 32-bit values), the index drawn by `pick` is in
bounds for each list, the picked adjective and animal are elements of their
lists, and the produced name is built from exactly those two picks. -/
theorem picked_words_in_lists (rng : Int → Nat → Nat)
    (adjectives animals : List String) (st : RandomName)
    (hrng : ∀ s i, rng s i < 2 ^ 32) (hadj : adjectives ≠ []) (hani : animals ≠ []) :
    rng st.seed st.cursor * adjectives.length / 2 ^ 32 < adjectives.length ∧
    rng st.seed (st.cursor + 1) * animals.length / 2 ^ 32 < animals.length ∧
    pick (rng st.seed st.cursor) adjectives ∈ adjectives ∧
    pick (rng st.seed (st.cursor + 1)) animals ∈ animals ∧
    ((st.nextName rng adjectives animals).1 =
      (let cap := if st.capitalize then capitalizeWord else id
       let base := (cap (pick (rng st.seed st.cursor) adjectives) ++ st.separator)
          ++ cap (pick (rng st.seed (st.cursor + 1)) animals)
       if st.addNumbers then
         (base ++ st.separator) ++ toString (rng st.seed (st.cursor + 2) * 100 / 2 ^ 32)
       else base)) :=
  ⟨pick_index_lt _ _ (hrng _ _) hadj, pick_index_lt _ _ (hrng _ _) hani,
    pick_mem _ _ (hrng _ _) hadj, pick_mem _ _ (hrng _ _) hani,
    nextName_fst rng adjectives animals st⟩

/-- C6 witness: with one-element word lists and a constant 32-bit stream the
bounds hold, both picks are list members, and the produced name is `"a x"`. -/
theorem picked_words_in_lists_witness :
    (5 : Nat) * 1 / 2 ^ 32 < 1 ∧
    pick 5 ["a"] ∈ ["a"] ∧ pick 5 ["x"] ∈ ["x"] ∧
    ((RandomName.create {} 3).nextName (fun _ _ => 5) ["a"] ["x"]).1 = "a x" := by
  have h := picked_words_in_lists (fun _ _ => 5) ["a"] ["x"] (RandomName.create {} 3)
    (fun _ _ => (by decide : (5 : Nat) < 2 ^ 32)) (by decide) (by decide)
  exact ⟨h.1, h.2.2.1, h.2.2.2.1, h.2.2.2.2.trans (by decide)⟩

/-- C1 (counterexample): the claim fails when the seed is present but equal to
`0`.  JavaScript truthiness in `options.seed || BigInt(Math.floor(...))` makes
a present seed of `0n` fall back to the random entropy, so two samplers built
from the identical config `{ seed: 0n, separator: "-" }` but different entropy
already differ at the first `next()` call. -/
theorem seed_zero_nondeterministic :
    ({ seed := some 0, separator := some "-" : RandomNameOptions }).seed.isSome = true ∧
    nameSeq (fun s _ => s.toNat % 2 ^ 32) ["a", "b"] ["x", "y"]
        (RandomName.create { seed := some 0, separator := some "-" } 1) 0 ≠
      nameSeq (fun s _ => s.toNat % 2 ^ 32) ["a", "b"] ["x", "y"]
        (RandomName.create { seed := some 0, separator := some "-" } (2 ^ 31)) 0 :=
  ⟨rfl, by decide⟩

/-- C1 (amended): for every config whose seed is present and nonzero, two
independently constructed samplers with identical config produce identical
sequences of strings for any number of `next()` calls, whatever entropy the
fallback seed provider supplied to each. -/
theorem nonzero_seed_deterministic (rng : Int → Nat → Nat)
    (adjectives animals : List String) (options : RandomNameOptions) (s : Int)
    (hs : options.seed = some s) (hs0 : s ≠ 0) (e1 e2 : Int) (k : Nat) :
    nameSeq rng adjectives animals (RandomName.create options e1) k =
      nameSeq rng adjectives animals (RandomName.create options e2) k := by
  have ht : intTruthy options.seed = true := by
    rw [hs]; simpa [intTruthy] using hs0
  have hcreate : RandomName.create options e1 = RandomName.create options e2 := by
    simp [RandomName.create, ht]
  rw [hcreate]

/-- C1 witness: with seed `5` the first produced names of two samplers built
with distinct entropy agree. -/
theorem nonzero_seed_deterministic_witness :
    nameSeq (fun s _ => s.toNat % 2 ^ 32) ["a", "b"] ["x", "y"]
        (RandomName.create { seed := some 5, separator := some "-" } 1) 0 =
      nameSeq (fun s _ => s.toNat % 2 ^ 32) ["a", "b"] ["x", "y"]
        (RandomName.create { seed := some 5, separator := some "-" } 2) 0 :=
  nonzero_seed_deterministic _ _ _ _ 5 rfl (by decide) 1 2 0

/-- C9: constructing a sampler with `separator = ""` yields exactly the same
sampler state as omitting the separator, and the same state as explicitly
passing `" "`; its separator field is the single space, so the words of every
output are joined with `" "` rather than concatenated directly. -/
theorem empty_separator_like_absent (options : RandomNameOptions) (entropy : Int) :
    RandomName.create { options with separator := some "" } entropy =
      RandomName.create { options with separator := none } entropy ∧
    RandomName.create { options with separator := some "" } entropy =
      RandomName.create { options with separator := some " " } entropy ∧
    (RandomName.create { options with separator := some "" } entropy).separator = " " :=
  ⟨rfl, rfl, rfl⟩

/-- C7: in explicit-name mode (the `name` option is truthy, i.e. supplied and
non-empty), `getProjectName` returns that name unchanged and its result does
not depend on the existence predicate (no existence check influences it). -/
theorem explicit_name_returned (rng : Int → Nat → Nat)
    (adjectives animals : List String) (ex : String → Bool) (options : Options)
    (entropy : Int) (fuel : Nat) (h : strTruthy options.name = true) :
    getProjectName rng adjectives animals ex options entropy fuel =
      some (options.name.getD "") ∧
    ∀ ex2 : String → Bool,
      getProjectName rng adjectives animals ex2 options entropy fuel =
        getProjectName rng adjectives animals ex options entropy fuel := by
  refine ⟨by simp [getProjectName, h], fun ex2 => by simp [getProjectName, h]⟩

/-- C7 witness: a supplied name `"bar"` is returned unchanged even when every
directory exists. -/
theorem explicit_name_returned_witness :
    getProjectName (fun _ _ => 0) [] [] (fun _ => true)
        { root := "r", name := some "bar" } 0 1 = some "bar" ∧
    ∀ ex2 : String → Bool,
      getProjectName (fun _ _ => 0) [] [] ex2 { root := "r", name := some "bar" } 0 1 =
        getProjectName (fun _ _ => 0) [] [] (fun _ => true)
          { root := "r", name := some "bar" } 0 1 := by
  have h := explicit_name_returned (fun _ _ => 0) [] [] (fun _ => true)
    { root := "r", name := some "bar" } 0 1 (by decide)
  exact ⟨h.1, h.2⟩

/-- C8: when both an explicit (truthy) name and a (truthy) copy base are
supplied, the explicit name wins: `getProjectName` returns it, the result does
not depend on the existence predicate, and it does not depend on the copy
field at all — the copy-suffix logic is never entered. -/
theorem explicit_name_precedes_copy (rng : Int → Nat → Nat)
    (adjectives animals : List String) (ex : String → Bool) (options : Options)
    (entropy : Int) (fuel : Nat)
    (hname : strTruthy options.name = true) (_hcopy : strTruthy options.copy = true) :
    getProjectName rng adjectives animals ex options entropy fuel =
      some (options.name.getD "") ∧
    (∀ ex2 : String → Bool,
      getProjectName rng adjectives animals ex2 options entropy fuel =
        getProjectName rng adjectives animals ex options entropy fuel) ∧
    ∀ copy2 : Option String,
      getProjectName rng adjectives animals ex { options with copy := copy2 } entropy fuel =
        getProjectName rng adjectives animals ex options entropy fuel := by
  refine ⟨by simp [getProjectName, hname], fun ex2 => by simp [getProjectName, hname],
    fun copy2 => by simp [getProjectName, hname]⟩

/-- C8 witness: with `name = "bar"` and `copy = "foo"` both supplied, the
explicit name is returned and the copy base is irrelevant. -/
theorem explicit_name_precedes_copy_witness :
    getProjectName (fun _ _ => 0) [] [] (fun _ => true)
        { root := "r", name := some "bar", copy := some "foo" } 0 1 = some "bar" ∧
    (∀ ex2 : String → Bool,
      getProjectName (fun _ _ => 0) [] [] ex2
          { root := "r", name := some "bar", copy := some "foo" } 0 1 =
        getProjectName (fun _ _ => 0) [] [] (fun _ => true)
          { root := "r", name := some "bar", copy := some "foo" } 0 1) ∧
    ∀ copy2 : Option String,
      getProjectName (fun _ _ => 0) [] [] (fun _ => true)
          { root := "r", name := some "bar", copy := copy2 } 0 1 =
        getProjectName (fun _ _ => 0) [] [] (fun _ => true)
          { root := "r", name := some "bar", copy := some "foo" } 0 1 := by
  have h := explicit_name_precedes_copy (fun _ _ => 0) [] [] (fun _ => true)
    { root := "r", name := some "bar", copy := some "foo" } 0 1 (by decide) (by decide)
  exact ⟨h.1, h.2.1, h.2.2⟩

theorem copyLoop_first_free (ex : String → Bool) (root base : String) :
    ∀ fuel m k, m ≤ k → k - m < fuel →
      (∀ j, j < k → ex (root ++ "/" ++ copyCandidate base j) = true) →
      ex (root ++ "/" ++ copyCandidate base k) = false →
      copyLoop ex root base (copyCandidate base m) (m + 1) fuel =
        some (copyCandidate base k) := by
  intro fuel
  induction fuel with
  | zero => intro m k _ h2 _ _; omega
  | succ fuel ih =>
    intro m k hmk hfuel htaken hfree
    by_cases hm : m = k
    · subst hm
      simp [copyLoop, hfree]
    · have hmk' : m < k := lt_of_le_of_ne hmk hm
      have hexm : ex (root ++ "/" ++ copyCandidate base m) = true := htaken m hmk'
      rw [copyLoop, if_pos hexm]
      show copyLoop ex root base (copyCandidate base (m + 1)) (m + 1 + 1) fuel = _
      exact ih (m + 1) k hmk' (by omega) htaken hfree

theorem copyLoop_avoids_taken (ex : String → Bool) (root base : String) :
    ∀ fuel x i n, copyLoop ex root base x i fuel = some n →
      ex (root ++ "/" ++ n) = false := by
  intro fuel
  induction fuel with
  | zero => intro x i n h; simp [copyLoop] at h
  | succ fuel ih =>
    intro x i n h
    rw [copyLoop] at h
    by_cases hx : ex (root ++ "/" ++ x) = true
    · rw [if_pos hx] at h
      exact ih _ _ _ h
    · rw [if_neg hx] at h
      cases h
      simpa using hx

theorem freshLoop_avoids_taken (ex : String → Bool) (rng : Int → Nat → Nat)
    (adjectives animals : List String) (root : String) :
    ∀ fuel st n, freshLoop ex rng adjectives animals root st fuel = some n →
      ex (root ++ "/" ++ n) = false := by
  intro fuel
  induction fuel with
  | zero => intro st n h; simp [freshLoop] at h
  | succ fuel ih =>
    intro st n h
    rw [freshLoop] at h
    by_cases hx : ex (root ++ "/" ++ (st.nextName rng adjectives animals).1) = true
    · rw [if_pos hx] at h
      exact ih _ _ h
    · rw [if_neg hx] at h
      cases h
      simpa using hx

/-- C2: in copy-suffix mode (no truthy name, truthy copy base) the resolver
probes `{base}-copy`, `{base}-copy-1`, `{base}-copy-2`, … in that order and
returns the first candidate the existence predicate rejects: if every
candidate below `k` is taken and candidate `k` is free (with enough fuel for
`k + 1` probes), the result is exactly candidate `k`. -/
theorem copy_mode_first_free (rng : Int → Nat → Nat)
    (adjectives animals : List String) (ex : String → Bool) (options : Options)
    (entropy : Int) (fuel k : Nat)
    (hname : strTruthy options.name = false) (hcopy : strTruthy options.copy = true)
    (htaken : ∀ j, j < k → ex (options.root ++ "/" ++ copyCandidate (options.copy.getD "") j) = true)
    (hfree : ex (options.root ++ "/" ++ copyCandidate (options.copy.getD "") k) = false)
    (hfuel : k < fuel) :
    getProjectName rng adjectives animals ex options entropy fuel =
      some (copyCandidate (options.copy.getD "") k) := by
  have hloop := copyLoop_first_free ex options.root (options.copy.getD "") fuel 0 k
    (Nat.zero_le k) (by omega) htaken hfree
  simpa [getProjectName, hname, hcopy, copyCandidate] using hloop

/-- C2 witness: the spec's own example — base `"foo"`, taken set
`{"foo-copy", "foo-copy-1"}` under root `"r"` — resolves to `"foo-copy-2"`. -/
theorem copy_mode_first_free_witness :
    getProjectName (fun _ _ => 0) [] []
        (fun p => p == "r/foo-copy" || p == "r/foo-copy-1")
        { copy := some "foo", root := "r" } 0 4 = some "foo-copy-2" := by
  have h := copy_mode_first_free (fun _ _ => 0) [] []
    (fun p => p == "r/foo-copy" || p == "r/foo-copy-1")
    { copy := some "foo", root := "r" } 0 4 2
    (by decide) (by decide) (by decide) (by decide) (by decide)
  exact h.trans (by decide)

/-- C3: outside explicit-name mode, whenever the resolver returns a name the
existence predicate rejects it (the name is not taken); and when nothing is
taken at all, the resolver returns its very first probed candidate —
`{base}-copy` in copy-suffix mode, the first sampled name in fresh-name
mode. -/
theorem resolver_avoids_taken (rng : Int → Nat → Nat)
    (adjectives animals : List String) (ex : String → Bool) (options : Options)
    (entropy : Int) (fuel : Nat) (hname : strTruthy options.name = false) :
    (∀ n, getProjectName rng adjectives animals ex options entropy fuel = some n →
      ex (options.root ++ "/" ++ n) = false) ∧
    ((∀ p, ex p = false) → 1 ≤ fuel →
      getProjectName rng adjectives animals ex options entropy fuel =
        some (if strTruthy options.copy then options.copy.getD "" ++ "-copy"
          else ((RandomName.create { separator := some "-", addNumbers := some true }
              entropy).nextName rng adjectives animals).1)) := by
  constructor
  · intro n h
    by_cases hcopy : strTruthy options.copy = true
    · simp only [getProjectName, hname, hcopy] at h
      simp only [Bool.false_eq_true, if_false, if_true] at h
      exact copyLoop_avoids_taken ex options.root _ fuel _ _ n h
    · simp only [getProjectName, hname, hcopy] at h
      simp only [Bool.false_eq_true, if_false] at h
      exact freshLoop_avoids_taken ex rng adjectives animals options.root fuel _ n h
  · intro hex hfuel
    obtain ⟨fuel', rfl⟩ : ∃ fuel', fuel = fuel' + 1 :=
      ⟨fuel - 1, by omega⟩
    by_cases hcopy : strTruthy options.copy = true
    · simp [getProjectName, hname, hcopy, copyLoop, hex]
    · simp [getProjectName, hname, hcopy, freshLoop, hex]

/-- C3 witness: with nothing taken, fresh-name mode returns the first sampled
name (here `"a-x-0"`), which the predicate indeed rejects. -/
theorem resolver_avoids_taken_witness :
    getProjectName (fun _ _ => 0) ["a"] ["x"] (fun _ => false) { root := "r" } 7 1 =
      some "a-x-0" := by
  have h := resolver_avoids_taken (fun _ _ => 0) ["a"] ["x"] (fun _ => false)
    { root := "r" } 7 1 (by decide)
  exact (h.2 (fun p => rfl) (by omega)).trans (by decide)

theorem copyLoopOld_eq (ex : String → Bool) (root base : String) :
    ∀ fuel x i, copyLoopOld ex root base x i fuel = copyLoop ex root base x i fuel := by
  intro fuel
  induction fuel with
  | zero => intro x i; rfl
  | succ fuel ih =>
    intro x i
    rw [copyLoopOld, copyLoop]
    by_cases hx : ex (root ++ "/" ++ x) = true
    · rw [if_pos hx, if_pos hx, ih]
    · rw [if_neg hx, if_neg hx]

theorem freshLoopOld_eq (ex : String → Bool) (rng : Int → Nat → Nat)
    (adjectives animals : List String) (root : String) :
    ∀ fuel st, freshLoopOld ex rng adjectives animals root st fuel =
      freshLoop ex rng adjectives animals root st fuel := by
  intro fuel
  induction fuel with
  | zero => intro st; rfl
  | succ fuel ih =>
    intro st
    rw [freshLoopOld, freshLoop]
    by_cases hx : ex (root ++ "/" ++ (st.nextName rng adjectives animals).1) = true
    · rw [if_pos hx, if_pos hx, ih]
    · rw [if_neg hx, if_neg hx]

/-- C10: the `getProjectName` of the earlier monolithic `main.ts` and the
`getProjectName` of the refactored `src/main.ts` are extensionally equal: for
every stream, word lists, existence predicate, options, entropy and fuel they
return the same project name. -/
theorem getProjectName_refactor_equiv (rng : Int → Nat → Nat)
    (adjectives animals : List String) (ex : String → Bool) (options : Options)
    (entropy : Int) (fuel : Nat) :
    getProjectNameOld rng adjectives animals ex options entropy fuel =
      getProjectName rng adjectives animals ex options entropy fuel := by
  simp only [getProjectNameOld, getProjectName, copyLoopOld_eq, freshLoopOld_eq]
